import Mathlib

/-
  Verification of the `structure` management command
  (src/app_structure/management/commands/structure.py).

  The command is sequential filesystem code, so we embed it shallowly:

  * A filesystem snapshot `FS` holds the set of directories and the set of
    files (with their contents).  Paths are lists of components, resolved
    relative to the process working directory, which is represented by the
    empty path `[]` and always exists as a directory (a running process
    always has an existing working directory).
  * Console output is a list of structured `Msg` values, one constructor per
    format string appearing in the source.
  * Each call of `remove_default_files`'s per-file check and each call of
    `create_folder_with_init` is additionally recorded in an event trace so
    that the order of operations is observable even for skipped operations.
  * Uncaught Python exceptions (`OSError` subclasses raised by `os.remove`,
    `os.makedirs`) become the `.err` constructor of `RunResult`, carrying the
    state and output at the moment of the abort.
-/

/-- A filesystem path, as its list of components relative to the process
working directory (`os.getcwd()`), which is the empty list. -/
abbrev FsPath := List String

/-- A snapshot of the filesystem: the directories that exist and the files
that exist together with their contents.  The working directory `[]` is
implicitly always a directory. -/
structure FS where
  dirs : List FsPath
  files : List (FsPath × String)
deriving DecidableEq, Repr

/-- Model of `os.path.join(p, s)` for a single component: joining the empty
string leaves the directory unchanged (POSIX: `join(d, "") = d + "/"`, which
resolves to the same directory), otherwise it appends one component. -/
def joinPath (p : FsPath) (s : String) : FsPath := if s = "" then p else p ++ [s]

/-- The path is a directory: the working directory, or recorded in `dirs`. -/
def FS.isDir (fs : FS) (p : FsPath) : Prop := p = [] ∨ p ∈ fs.dirs

/-- The path is a file recorded in `files`. -/
def FS.isFile (fs : FS) (p : FsPath) : Prop := p ∈ fs.files.map Prod.fst

/-- Model of `os.path.exists`: the path is a directory or a file. -/
def FS.existsP (fs : FS) (p : FsPath) : Prop := fs.isDir p ∨ fs.isFile p

instance (fs : FS) (p : FsPath) : Decidable (fs.isDir p) := by
  unfold FS.isDir; infer_instance

instance (fs : FS) (p : FsPath) : Decidable (fs.isFile p) := by
  unfold FS.isFile; infer_instance

instance (fs : FS) (p : FsPath) : Decidable (fs.existsP p) := by
  unfold FS.existsP; infer_instance

/-- One console message per format string of the source:
`ERROR "App '{app_name}' does not exist"`, `WARNING "Removed {file_path}"`,
`SUCCESS "Created {path}"`, `SUCCESS "Structure created for app '{app_name}'"`. -/
inductive Msg where
  | errorNoApp (appName : String)
  | removedFile (p : FsPath)
  | created (p : FsPath)
  | structureCreated (appName : String)
deriving DecidableEq, Repr

/-- Instrumentation events: each per-file existence check of
`remove_default_files` and each entry into `create_folder_with_init`. -/
inductive Event where
  | removeCheck (p : FsPath)
  | createAttempt (p : FsPath)
deriving DecidableEq, Repr

/-- The running state of one command invocation: filesystem, console output
so far, and the call trace so far. -/
structure Runtime where
  fs : FS
  out : List Msg
  trace : List Event
deriving DecidableEq, Repr

/-- Outcome of a (partial) run: normal return, or an uncaught exception
together with the state and output already produced when it was raised. -/
inductive RunResult where
  | ok (rt : Runtime)
  | err (rt : Runtime) (e : String)
deriving DecidableEq, Repr

/-- Sequencing: an uncaught exception aborts the rest of the run. -/
def RunResult.andThen : RunResult → (Runtime → RunResult) → RunResult
  | .ok rt, f => f rt
  | .err rt e, _ => .err rt e

/-- The filesystem state carried by a run outcome. -/
def RunResult.fs : RunResult → FS
  | .ok rt => rt.fs
  | .err rt _ => rt.fs

/-- The console output carried by a run outcome. -/
def RunResult.out : RunResult → List Msg
  | .ok rt => rt.out
  | .err rt _ => rt.out

/-- Model of `os.mkdir` (one level): fails if the parent is not an existing
directory, fails if the path itself already exists, otherwise records the new
directory. -/
def mkdir (fs : FS) (p : FsPath) : Except String FS :=
  if ¬ fs.isDir p.dropLast then .error "NotADirectoryError"
  else if fs.existsP p then .error "FileExistsError"
  else .ok { fs with dirs := p :: fs.dirs }

/-- Model of `os.makedirs`, on the reversed component list (so the recursion
on `os.path.split`, which drops the last component, is structural).  As in
CPython: if the parent is nonempty and does not exist, recursively create it,
then `mkdir` the path itself.  Returns the filesystem reached (also on
failure, since already-created parents persist) and the uncaught exception,
if any. -/
def makedirsRev (fs : FS) : List String → FS × Option String
  | [] => (fs, some "FileNotFoundError")
  | c :: rest =>
    let head : FsPath := rest.reverse
    let step : FS × Option String :=
      if head ≠ [] ∧ ¬ fs.existsP head then makedirsRev fs rest else (fs, none)
    match step with
    | (fs1, some e) => (fs1, some e)
    | (fs1, none) =>
      match mkdir fs1 (rest.reverse ++ [c]) with
      | .ok fs2 => (fs2, none)
      | .error e => (fs1, some e)

/-- Model of `os.makedirs(path)`. -/
def makedirs (fs : FS) (p : FsPath) : FS × Option String := makedirsRev fs p.reverse

/-- Model of `open(p, "w")` immediately closed: the file now exists with the
given contents (an existing file at the same path is truncated/replaced). -/
def writeFile (fs : FS) (p : FsPath) (content : String) : FS :=
  { fs with files := (p, content) :: fs.files.filter (fun e => e.1 ≠ p) }

/-- Model of `os.remove`: fails on a directory, fails on a missing path,
otherwise deletes the file. -/
def osRemove (fs : FS) (p : FsPath) : Except String FS :=
  if fs.isDir p then .error "IsADirectoryError"
  else if ¬ fs.isFile p then .error "FileNotFoundError"
  else .ok { fs with files := fs.files.filter (fun e => e.1 ≠ p) }

/-- `Command.create_folder_with_init(path)` (structure.py lines 106-118):
if the path does not exist, `os.makedirs(path)`, create an empty
`__init__.py` inside it, and report `Created {path}`; otherwise do nothing.
The entry of the call is recorded in the trace. -/
def createFolderWithInit (rt : Runtime) (path : FsPath) : RunResult :=
  let rt := { rt with trace := rt.trace ++ [Event.createAttempt path] }
  if ¬ rt.fs.existsP path then
    match makedirs rt.fs path with
    | (fs1, some e) => .err { rt with fs := fs1 } e
    | (fs1, none) =>
      let initPath := joinPath path "__init__.py"
      .ok { rt with
            fs := writeFile fs1 initPath ""
            out := rt.out ++ [Msg.created path] }
  else .ok rt

/-- The `default_files` list of `Command.remove_default_files`
(structure.py line 84). -/
def defaultFiles : List String := ["models.py", "admin.py", "tests.py", "views.py"]

/-- The loop body of `Command.remove_default_files` (lines 85-89): for each
filename in order, if `base_dir/filename` exists, `os.remove` it and report
`Removed {file_path}`. -/
def removeFilesLoop (baseDir : FsPath) (rt : Runtime) : List String → RunResult
  | [] => .ok rt
  | filename :: rest =>
    let filePath := joinPath baseDir filename
    let rt := { rt with trace := rt.trace ++ [Event.removeCheck filePath] }
    if rt.fs.existsP filePath then
      match osRemove rt.fs filePath with
      | .error e => .err rt e
      | .ok fs1 =>
        removeFilesLoop baseDir
          { rt with fs := fs1, out := rt.out ++ [Msg.removedFile filePath] } rest
    else removeFilesLoop baseDir rt rest

/-- `Command.remove_default_files(base_dir)` (structure.py lines 77-89). -/
def removeDefaultFiles (rt : Runtime) (baseDir : FsPath) : RunResult :=
  removeFilesLoop baseDir rt defaultFiles

/-- The hardcoded `structure` dictionary of `Command.handle`
(structure.py lines 47-66), in its insertion order. -/
def structureTable : List (String × List String) :=
  [ ("admin", []),
    ("api",
      [ "exceptions", "filters", "orderings", "paginations", "permissions",
        "schema", "routers", "serializers", "throttlings", "views" ]),
    ("models", ["helper"]),
    ("repository", ["manager", "queryset"]),
    ("signals", []),
    ("tests", ["models", "api", "admin"]),
    ("validators", []) ]

/-- The inner loop of `Command.create_folder_structure` (lines 102-104). -/
def createSubfolders (folderPath : FsPath) (rt : Runtime) : List String → RunResult
  | [] => .ok rt
  | subfolder :: rest =>
    (createFolderWithInit rt (joinPath folderPath subfolder)).andThen
      (fun rt1 => createSubfolders folderPath rt1 rest)

/-- The outer loop of `Command.create_folder_structure` (lines 99-104). -/
def createFoldersLoop (baseDir : FsPath) (rt : Runtime) :
    List (String × List String) → RunResult
  | [] => .ok rt
  | (folder, subfolders) :: rest =>
    let folderPath := joinPath baseDir folder
    ((createFolderWithInit rt folderPath).andThen
      (fun rt1 => createSubfolders folderPath rt1 subfolders)).andThen
      (fun rt2 => createFoldersLoop baseDir rt2 rest)

/-- `Command.create_folder_structure(base_dir, structure)`
(structure.py lines 91-104). -/
def createFolderStructure (rt : Runtime) (baseDir : FsPath)
    (structureTbl : List (String × List String)) : RunResult :=
  createFoldersLoop baseDir rt structureTbl

/-- `Command.handle` (structure.py lines 27-75): resolve `base_dir`, report
an error and return if it does not exist, otherwise remove the default
files, build the folder structure, create `models/helper/enums`, and report
overall success. -/
def handle (fs : FS) (appName : String) : RunResult :=
  let baseDir := joinPath [] appName
  if ¬ fs.existsP baseDir then
    .ok { fs := fs, out := [Msg.errorNoApp appName], trace := [] }
  else
    (removeDefaultFiles { fs := fs, out := [], trace := [] } baseDir).andThen
      (fun rt1 =>
        (createFolderStructure rt1 baseDir structureTable).andThen
          (fun rt2 =>
            (createFolderWithInit rt2
                (joinPath (joinPath (joinPath baseDir "models") "helper") "enums")).andThen
              (fun rt3 =>
                .ok { rt3 with out := rt3.out ++ [Msg.structureCreated appName] })))

/-
  Vocabulary for the theorems.
-/

/-- The 24 relative folder paths of the scaffold, in the order in which the
command attempts (and, on a fresh target, creates) them: table order with
each folder before its subfolders, then `models/helper/enums`. -/
def attemptRels : List FsPath :=
  [ ["admin"],
    ["api"], ["api", "exceptions"], ["api", "filters"], ["api", "orderings"],
    ["api", "paginations"], ["api", "permissions"], ["api", "schema"],
    ["api", "routers"], ["api", "serializers"], ["api", "throttlings"],
    ["api", "views"],
    ["models"], ["models", "helper"],
    ["repository"], ["repository", "manager"], ["repository", "queryset"],
    ["signals"],
    ["tests"], ["tests", "models"], ["tests", "api"], ["tests", "admin"],
    ["validators"],
    ["models", "helper", "enums"] ]

/-- The 24 relative folder paths of the scaffold, in the order in which the
specification lists the resulting tree (each folder with its subtree). -/
def scaffoldRels : List FsPath :=
  [ ["admin"],
    ["api"], ["api", "exceptions"], ["api", "filters"], ["api", "orderings"],
    ["api", "paginations"], ["api", "permissions"], ["api", "schema"],
    ["api", "routers"], ["api", "serializers"], ["api", "throttlings"],
    ["api", "views"],
    ["models"], ["models", "helper"], ["models", "helper", "enums"],
    ["repository"], ["repository", "manager"], ["repository", "queryset"],
    ["signals"],
    ["tests"], ["tests", "models"], ["tests", "api"], ["tests", "admin"],
    ["validators"] ]

/-- The absolute paths attempted by `createFoldersLoop` on a table, in
attempt order: each folder followed by its subfolders. -/
def loopTargets (baseDir : FsPath) : List (String × List String) → List FsPath
  | [] => []
  | (folder, subfolders) :: rest =>
    joinPath baseDir folder ::
      (subfolders.map (fun s => joinPath (joinPath baseDir folder) s) ++
        loopTargets baseDir rest)

/-- All paths handed to `create_folder_with_init` during one run, in attempt
order: the structure-table targets, then `models/helper/enums`. -/
def allCreatePaths (baseDir : FsPath) : List FsPath :=
  loopTargets baseDir structureTable ++
    [joinPath (joinPath (joinPath baseDir "models") "helper") "enums"]

/-- The full event trace of one run that reaches the end: the four default-
file checks, then the 24 creation attempts. -/
def runTrace (baseDir : FsPath) : List Event :=
  defaultFiles.map (fun f => Event.removeCheck (joinPath baseDir f)) ++
    (allCreatePaths baseDir).map Event.createAttempt

/-- `q` is a direct child of directory `d`. -/
def isChildOf (q d : FsPath) : Prop := q ≠ [] ∧ q.dropLast = d

instance (q d : FsPath) : Decidable (isChildOf q d) := by
  unfold isChildOf; infer_instance

/-- The file entries lying directly inside directory `d`. -/
def fileChildren (fs : FS) (d : FsPath) : List (FsPath × String) :=
  fs.files.filter (fun e => decide (isChildOf e.1 d))

/-- The directory chain `os.makedirs` would create for the (reversed) path:
the path itself, preceded (in creation order: consed in front) by the chain
of its missing parents. -/
def missingChain (fs : FS) : List String → List FsPath
  | [] => []
  | c :: rest =>
    (rest.reverse ++ [c]) ::
      (if rest.reverse ≠ [] ∧ ¬ fs.existsP rest.reverse then missingChain fs rest
       else [])

/-- `fs'` has every directory and every file entry of `fs`. -/
def extendsTo (fs fs' : FS) : Prop :=
  (∀ q ∈ fs.dirs, q ∈ fs'.dirs) ∧ (∀ e ∈ fs.files, e ∈ fs'.files)

/-- Every file's parent is an existing directory.  This holds of any state a
real filesystem can be in, and is preserved by the command's operations. -/
def FS.filesClosed (fs : FS) : Prop := ∀ e ∈ fs.files, fs.isDir e.1.dropLast

instance (fs : FS) : Decidable fs.filesClosed := by
  unfold FS.filesClosed; infer_instance

/-- Well-formedness of a filesystem snapshot: no entry is the working
directory itself, every entry's parent is an existing directory, and no path
is simultaneously a directory and a file.  Any state reachable on a real
filesystem satisfies this. -/
def FS.Wf (fs : FS) : Prop :=
  (∀ p ∈ fs.dirs, p ≠ [] ∧ fs.isDir p.dropLast) ∧
  (∀ e ∈ fs.files, e.1 ≠ [] ∧ fs.isDir e.1.dropLast) ∧
  (∀ p ∈ fs.dirs, ¬ fs.isFile p)

instance (fs : FS) : Decidable fs.Wf := by
  unfold FS.Wf; infer_instance

/-
  Basic lemmas about the filesystem primitives.
-/

theorem FS.existsP_nil (fs : FS) : fs.existsP [] := Or.inl (Or.inl rfl)

theorem joinPath_ne (p : FsPath) (s : String) (h : s ≠ "") :
    joinPath p s = p ++ [s] := by
  simp [joinPath, h]

theorem extendsTo_refl (fs : FS) : extendsTo fs fs :=
  ⟨fun _ h => h, fun _ h => h⟩

theorem extendsTo_trans {fs1 fs2 fs3 : FS} (h1 : extendsTo fs1 fs2)
    (h2 : extendsTo fs2 fs3) : extendsTo fs1 fs3 :=
  ⟨fun q hq => h2.1 q (h1.1 q hq), fun e he => h2.2 e (h1.2 e he)⟩

theorem extendsTo_existsP {fs1 fs2 : FS} (h : extendsTo fs1 fs2) (q : FsPath)
    (hq : fs1.existsP q) : fs2.existsP q := by
  rcases hq with hd | hf
  · rcases hd with rfl | hd
    · exact fs2.existsP_nil
    · exact Or.inl (Or.inr (h.1 q hd))
  · rcases List.mem_map.mp hf with ⟨e, he, rfl⟩
    exact Or.inr (List.mem_map.mpr ⟨e, h.2 e he, rfl⟩)

theorem mkdir_ok_iff (fs : FS) (p : FsPath) (fs' : FS) :
    mkdir fs p = Except.ok fs' ↔
      fs.isDir p.dropLast ∧ ¬ fs.existsP p ∧
        fs' = { fs with dirs := p :: fs.dirs } := by
  unfold mkdir
  split_ifs with h1 h2 <;> simp_all [eq_comm]

theorem osRemove_ok_iff (fs : FS) (p : FsPath) (fs' : FS) :
    osRemove fs p = Except.ok fs' ↔
      ¬ fs.isDir p ∧ fs.isFile p ∧
        fs' = { fs with files := fs.files.filter (fun e => e.1 ≠ p) } := by
  unfold osRemove
  split_ifs with h1 h2 <;> simp_all [eq_comm]

theorem makedirsRev_facts (fs : FS) (rp : List String) :
    ((makedirsRev fs rp).1).files = fs.files ∧
    (∀ q ∈ fs.dirs, q ∈ ((makedirsRev fs rp).1).dirs) ∧
    ((makedirsRev fs rp).2 = none → rp.reverse ∈ ((makedirsRev fs rp).1).dirs) := by
  induction rp with
  | nil => exact ⟨rfl, fun q hq => hq, by simp [makedirsRev]⟩
  | cons c rest ih =>
    simp only [makedirsRev]
    by_cases hcond : rest.reverse ≠ [] ∧ ¬ fs.existsP rest.reverse
    · rw [if_pos hcond]
      rcases hm : makedirsRev fs rest with ⟨fs1, e?⟩
      rw [hm] at ih
      cases e? with
      | some e => exact ⟨ih.1, ih.2.1, by simp⟩
      | none =>
        dsimp only
        rcases hk : mkdir fs1 (rest.reverse ++ [c]) with e | fs2
        · dsimp only
          exact ⟨ih.1, ih.2.1, by simp⟩
        · dsimp only
          rw [mkdir_ok_iff] at hk
          refine ⟨by rw [hk.2.2]; exact ih.1, ?_, ?_⟩
          · intro q hq
            rw [hk.2.2]
            exact List.mem_cons_of_mem _ (ih.2.1 q hq)
          · intro _
            rw [hk.2.2]
            simp [List.reverse_cons]
    · rw [if_neg hcond]
      dsimp only
      rcases hk : mkdir fs (rest.reverse ++ [c]) with e | fs2
      · dsimp only
        exact ⟨rfl, fun q hq => hq, by simp⟩
      · dsimp only
        rw [mkdir_ok_iff] at hk
        refine ⟨by rw [hk.2.2], ?_, ?_⟩
        · intro q hq
          rw [hk.2.2]
          exact List.mem_cons_of_mem _ hq
        · intro _
          rw [hk.2.2]
          simp [List.reverse_cons]

theorem makedirs_parent (fs : FS) (p : FsPath) (hp : p ≠ [])
    (hpar : fs.existsP p.dropLast) :
    makedirs fs p = (match mkdir fs p with
                     | .ok fs2 => (fs2, none)
                     | .error e => (fs, some e)) := by
  obtain ⟨q, c, rfl⟩ : ∃ q c, p = q ++ [c] := by
    rcases List.eq_nil_or_concat p with h | ⟨q, c, h⟩
    · exact absurd h hp
    · exact ⟨q, c, by simpa using h⟩
  rw [List.dropLast_concat] at hpar
  unfold makedirs
  have hrev : (q ++ [c]).reverse = c :: q.reverse := by simp
  rw [hrev]
  simp only [makedirsRev]
  rw [if_neg (by simp [hpar])]
  simp only [List.reverse_reverse]

/-
  Lemmas about create_folder_with_init.
-/

theorem initName_ne_empty : ("__init__.py" : String) ≠ "" := by decide

theorem writeFile_files (fs : FS) (p : FsPath) (content : String) :
    (writeFile fs p content).files =
      (p, content) :: fs.files.filter (fun e => e.1 ≠ p) := rfl

theorem writeFile_dirs (fs : FS) (p : FsPath) (content : String) :
    (writeFile fs p content).dirs = fs.dirs := rfl

theorem createFolderWithInit_skip (rt : Runtime) (path : FsPath)
    (h : rt.fs.existsP path) :
    createFolderWithInit rt path =
      .ok { rt with trace := rt.trace ++ [Event.createAttempt path] } := by
  simp [createFolderWithInit, h]

theorem createFolderWithInit_create (rt : Runtime) (path : FsPath)
    (h1 : ¬ rt.fs.existsP path) (h2 : rt.fs.isDir path.dropLast)
    (h3 : ¬ rt.fs.isFile (path ++ ["__init__.py"])) :
    createFolderWithInit rt path =
      .ok { fs := FS.mk (path :: rt.fs.dirs)
                        ((path ++ ["__init__.py"], "") :: rt.fs.files),
            out := rt.out ++ [Msg.created path],
            trace := rt.trace ++ [Event.createAttempt path] } := by
  have hne : path ≠ [] := fun hp => h1 (hp ▸ rt.fs.existsP_nil)
  have hk : mkdir rt.fs path = .ok { rt.fs with dirs := path :: rt.fs.dirs } :=
    (mkdir_ok_iff _ _ _).mpr ⟨h2, h1, rfl⟩
  simp only [createFolderWithInit]
  rw [if_pos h1, makedirs_parent rt.fs path hne (Or.inl h2), hk]
  dsimp only
  rw [joinPath_ne path _ initName_ne_empty]
  have hfilter :
      rt.fs.files.filter (fun e => e.1 ≠ path ++ ["__init__.py"]) = rt.fs.files := by
    rw [List.filter_eq_self]
    intro e he
    simp only [ne_eq, decide_not, Bool.not_eq_eq_eq_not, Bool.not_true,
      decide_eq_false_iff_not]
    exact fun hcontra => h3 (List.mem_map.mpr ⟨e, he, hcontra⟩)
  simp only [writeFile, hfilter, RunResult.ok.injEq]

theorem createFolderWithInit_ok_trace (rt : Runtime) (path : FsPath)
    (rt' : Runtime) (h : createFolderWithInit rt path = .ok rt') :
    rt'.trace = rt.trace ++ [Event.createAttempt path] := by
  by_cases hex : rt.fs.existsP path
  · rw [createFolderWithInit_skip rt path hex] at h
    cases h
    rfl
  · simp only [createFolderWithInit] at h
    rw [if_pos hex] at h
    rcases hmk : makedirs rt.fs path with ⟨fs1, e?⟩
    rw [hmk] at h
    cases e? with
    | some e => exact absurd h (by simp)
    | none =>
      dsimp only at h
      cases h
      rfl

theorem createFolderWithInit_ok_facts (rt : Runtime) (path : FsPath)
    (rt' : Runtime)
    (hpar : rt.fs.existsP path.dropLast ∨ rt.fs.existsP path)
    (h : createFolderWithInit rt path = .ok rt') :
    (∀ q, rt.fs.existsP q → rt'.fs.existsP q) ∧ rt'.fs.existsP path ∧
    (∀ q, rt'.fs.existsP q →
      rt.fs.existsP q ∨ q = path ∨ q = path ++ ["__init__.py"]) := by
  by_cases hex : rt.fs.existsP path
  · rw [createFolderWithInit_skip rt path hex] at h
    cases h
    exact ⟨fun q hq => hq, hex, fun q hq => Or.inl hq⟩
  · have hne : path ≠ [] := fun hp => hex (hp ▸ rt.fs.existsP_nil)
    have hpar' : rt.fs.existsP path.dropLast := hpar.resolve_right hex
    simp only [createFolderWithInit] at h
    rw [if_pos hex, makedirs_parent rt.fs path hne hpar'] at h
    rcases hk : mkdir rt.fs path with e | fs2
    · rw [hk] at h
      exact absurd h (by simp)
    · rw [hk] at h
      rw [mkdir_ok_iff] at hk
      obtain ⟨hk1, hk2, rfl⟩ := hk
      dsimp only at h
      rw [joinPath_ne path _ initName_ne_empty] at h
      cases h
      refine ⟨?_, ?_, ?_⟩
      · intro q hq
        rcases hq with hd | hf
        · rcases hd with rfl | hd
          · exact Or.inl (Or.inl rfl)
          · exact Or.inl (Or.inr (List.mem_cons_of_mem _ hd))
        · obtain ⟨e, he, rfl⟩ := List.mem_map.mp hf
          by_cases hq1 : e.1 = path ++ ["__init__.py"]
          · refine Or.inr (List.mem_map.mpr ⟨(path ++ ["__init__.py"], ""), ?_, hq1.symm ▸ rfl⟩)
            simp [writeFile]
          · refine Or.inr (List.mem_map.mpr ⟨e, ?_, rfl⟩)
            simp only [writeFile]
            refine List.mem_cons_of_mem _ (List.mem_filter.mpr ⟨he, by simp [hq1]⟩)
      · exact Or.inl (Or.inr (List.mem_cons_self _ _))
      · intro q hq
        rcases hq with hd | hf
        · rcases hd with rfl | hd
          · exact Or.inl (rt.fs.existsP_nil)
          · rcases List.mem_cons.mp hd with rfl | hd
            · exact Or.inr (Or.inl rfl)
            · exact Or.inl (Or.inl (Or.inr hd))
        · simp only [FS.isFile, writeFile, List.map_cons, List.mem_cons] at hf
          rcases hf with hf | hf
          · exact Or.inr (Or.inr hf)
          · obtain ⟨e, he, rfl⟩ := List.mem_map.mp hf
            exact Or.inl (Or.inr (List.mem_map.mpr ⟨e, (List.mem_filter.mp he).1, rfl⟩))

theorem createFolderWithInit_frame (rt : Runtime) (path : FsPath)
    (hc : rt.fs.filesClosed) :
    extendsTo rt.fs ((createFolderWithInit rt path).fs) ∧
    ((createFolderWithInit rt path).fs).filesClosed := by
  by_cases hex : rt.fs.existsP path
  · rw [createFolderWithInit_skip rt path hex]
    exact ⟨extendsTo_refl _, hc⟩
  · have hne : path ≠ [] := fun hp => hex (hp ▸ rt.fs.existsP_nil)
    simp only [createFolderWithInit]
    rw [if_pos hex]
    rcases hmk : makedirs rt.fs path with ⟨fs1, e?⟩
    have hfacts := makedirsRev_facts rt.fs path.reverse
    rw [show makedirsRev rt.fs path.reverse = makedirs rt.fs path from rfl, hmk]
      at hfacts
    obtain ⟨hfiles, hdirs, hmem⟩ := hfacts
    dsimp only at hfiles hdirs hmem
    have hext1 : extendsTo rt.fs fs1 :=
      ⟨hdirs, fun e he => by rw [hfiles]; exact he⟩
    have hc1 : fs1.filesClosed := by
      intro e he
      rw [hfiles] at he
      rcases hc e he with hnil | hd
      · exact Or.inl hnil
      · exact Or.inr (hdirs _ hd)
    cases e? with
    | some e => exact ⟨hext1, hc1⟩
    | none =>
      dsimp only [RunResult.fs]
      rw [joinPath_ne path _ initName_ne_empty]
      have hpmem : path ∈ fs1.dirs := by
        have := hmem rfl
        rwa [List.reverse_reverse] at this
      have hfilter :
          fs1.files.filter (fun e => e.1 ≠ path ++ ["__init__.py"]) = fs1.files := by
        rw [List.filter_eq_self]
        intro e he
        simp only [ne_eq, decide_not, Bool.not_eq_eq_eq_not, Bool.not_true,
          decide_eq_false_iff_not]
        intro hcontra
        rw [hfiles] at he
        have hdirp := hc e he
        rw [hcontra, List.dropLast_concat] at hdirp
        rcases hdirp with hnil | hd
        · exact hne hnil
        · exact hex (Or.inl (Or.inr hd))
      have hwf : (writeFile fs1 (path ++ ["__init__.py"]) "").files =
          (path ++ ["__init__.py"], "") :: fs1.files := by
        rw [writeFile_files, hfilter]
      constructor
      · refine extendsTo_trans hext1 ⟨fun q hq => hq, ?_⟩
        intro e he
        rw [hwf]
        exact List.mem_cons_of_mem _ he
      · intro e he
        rw [hwf, List.mem_cons] at he
        rcases he with rfl | he
        · dsimp only
          rw [List.dropLast_concat]
          exact Or.inr hpmem
        · exact hc1 e he

/-
  Lemmas about remove_default_files.
-/

theorem FS.isDir_congr {fs1 fs2 : FS} (h : fs1.dirs = fs2.dirs) (p : FsPath) :
    fs1.isDir p ↔ fs2.isDir p := by
  unfold FS.isDir
  rw [h]

theorem joinPath_inj (b : FsPath) (f g : String) :
    joinPath b f = joinPath b g ↔ f = g := by
  unfold joinPath
  split_ifs with hf hg hg
  · simp [hf, hg]
  · constructor
    · intro hb
      exact absurd hb.symm (by simp [List.append_right_eq_self, hg])
    · intro hfg
      exact absurd (hf ▸ hfg).symm hg
  · constructor
    · intro hb
      exact absurd hb (by simp [List.append_right_eq_self, hf])
    · intro hfg
      exact absurd (hg ▸ hfg) hf
  · simp

theorem isFile_filter_ne (files : List (FsPath × String)) (p q : FsPath)
    (h : q ≠ p) :
    q ∈ (files.filter (fun e => e.1 ≠ p)).map Prod.fst ↔
      q ∈ files.map Prod.fst := by
  constructor
  · intro hq
    obtain ⟨e, he, rfl⟩ := List.mem_map.mp hq
    exact List.mem_map.mpr ⟨e, (List.mem_filter.mp he).1, rfl⟩
  · intro hq
    obtain ⟨e, he, rfl⟩ := List.mem_map.mp hq
    exact List.mem_map.mpr ⟨e, List.mem_filter.mpr ⟨he, by simp [h]⟩, rfl⟩

theorem existsP_remove_ne (fs : FS) (p q : FsPath) (h : q ≠ p) :
    (FS.mk fs.dirs (fs.files.filter (fun e => e.1 ≠ p))).existsP q ↔
      fs.existsP q := by
  unfold FS.existsP FS.isDir FS.isFile
  exact or_congr Iff.rfl (isFile_filter_ne fs.files p q h)

theorem removeFilesLoop_skip (baseDir : FsPath) (rt : Runtime) (fl : List String)
    (h : ∀ f ∈ fl, ¬ rt.fs.existsP (joinPath baseDir f)) :
    removeFilesLoop baseDir rt fl =
      .ok { rt with trace := rt.trace ++
              fl.map (fun f => Event.removeCheck (joinPath baseDir f)) } := by
  induction fl generalizing rt with
  | nil => simp [removeFilesLoop]
  | cons f rest ih =>
    simp only [removeFilesLoop]
    rw [if_neg (h f (List.mem_cons_self f rest))]
    rw [ih { rt with trace := rt.trace ++ [Event.removeCheck (joinPath baseDir f)] }
        (fun g hg => h g (List.mem_cons_of_mem f hg))]
    simp

theorem removeFilesLoop_run (baseDir : FsPath) (rt : Runtime) (fl : List String)
    (hnd : ∀ f ∈ fl, ¬ rt.fs.isDir (joinPath baseDir f)) (hnodup : fl.Nodup) :
    removeFilesLoop baseDir rt fl =
      .ok { fs := FS.mk rt.fs.dirs
              (rt.fs.files.filter (fun e => e.1 ∉ fl.map (joinPath baseDir))),
            out := rt.out ++
              (fl.filter (fun f => rt.fs.existsP (joinPath baseDir f))).map
                (fun f => Msg.removedFile (joinPath baseDir f)),
            trace := rt.trace ++
              fl.map (fun f => Event.removeCheck (joinPath baseDir f)) } := by
  induction fl generalizing rt with
  | nil => simp [removeFilesLoop]
  | cons f rest ih =>
    have hfrest : f ∉ rest := (List.nodup_cons.mp hnodup).1
    have hrestnodup : rest.Nodup := (List.nodup_cons.mp hnodup).2
    simp only [removeFilesLoop]
    by_cases hc : rt.fs.existsP (joinPath baseDir f)
    · rw [if_pos hc]
      have hfile : rt.fs.isFile (joinPath baseDir f) :=
        hc.resolve_left (hnd f (List.mem_cons_self f rest))
      have hrem : osRemove rt.fs (joinPath baseDir f) =
          .ok { rt.fs with files :=
                  rt.fs.files.filter (fun e => e.1 ≠ joinPath baseDir f) } :=
        (osRemove_ok_iff _ _ _).mpr ⟨hnd f (List.mem_cons_self f rest), hfile, rfl⟩
      rw [hrem]
      dsimp only
      set rt1 : Runtime :=
        { fs := FS.mk rt.fs.dirs
            (rt.fs.files.filter (fun e => e.1 ≠ joinPath baseDir f)),
          out := rt.out ++ [Msg.removedFile (joinPath baseDir f)],
          trace := rt.trace ++ [Event.removeCheck (joinPath baseDir f)] } with hrt1
      have hnd1 : ∀ g ∈ rest, ¬ rt1.fs.isDir (joinPath baseDir g) := by
        intro g hg
        exact hnd g (List.mem_cons_of_mem f hg)
      rw [ih rt1 hnd1 hrestnodup]
      have hex1 : ∀ g ∈ rest,
          (rt1.fs.existsP (joinPath baseDir g) ↔
            rt.fs.existsP (joinPath baseDir g)) := by
        intro g hg
        have hne : joinPath baseDir g ≠ joinPath baseDir f := by
          intro hcontra
          exact hfrest (((joinPath_inj baseDir g f).mp hcontra) ▸ hg)
        exact existsP_remove_ne rt.fs (joinPath baseDir f) (joinPath baseDir g) hne
      have hout : rest.filter (fun g => rt1.fs.existsP (joinPath baseDir g)) =
          rest.filter (fun g => rt.fs.existsP (joinPath baseDir g)) := by
        apply List.filter_congr
        intro g hg
        rw [decide_eq_decide]
        exact hex1 g hg
      have hfiles : rt1.fs.files.filter
            (fun e => e.1 ∉ rest.map (joinPath baseDir)) =
          rt.fs.files.filter
            (fun e => e.1 ∉ (f :: rest).map (joinPath baseDir)) := by
        rw [hrt1]
        dsimp only
        rw [List.filter_filter]
        apply List.filter_congr
        intro e he
        by_cases h1 : e.1 = joinPath baseDir f <;>
          by_cases h2 : e.1 ∈ rest.map (joinPath baseDir) <;>
            simp [h1, h2]
      rw [hout, hfiles]
      rw [hrt1]
      simp [List.filter_cons, hc]
    · rw [if_neg hc]
      set rt1 : Runtime :=
        { rt with trace := rt.trace ++ [Event.removeCheck (joinPath baseDir f)] }
        with hrt1
      have hnd1 : ∀ g ∈ rest, ¬ rt1.fs.isDir (joinPath baseDir g) := by
        intro g hg
        exact hnd g (List.mem_cons_of_mem f hg)
      rw [ih rt1 hnd1 hrestnodup]
      have hfiles : rt1.fs.files.filter
            (fun e => e.1 ∉ rest.map (joinPath baseDir)) =
          rt.fs.files.filter
            (fun e => e.1 ∉ (f :: rest).map (joinPath baseDir)) := by
        apply List.filter_congr
        intro e he
        have hne : e.1 ≠ joinPath baseDir f := by
          intro hcontra
          exact hc (Or.inr (List.mem_map.mpr ⟨e, he, hcontra⟩))
        by_cases h2 : e.1 ∈ rest.map (joinPath baseDir) <;> simp [hne, h2]
      rw [hfiles]
      rw [hrt1]
      simp [List.filter_cons, hc]

theorem removeFilesLoop_fs_facts (baseDir : FsPath) (rt : Runtime)
    (fl : List String) :
    ((removeFilesLoop baseDir rt fl).fs).dirs = rt.fs.dirs ∧
    (∀ e ∈ ((removeFilesLoop baseDir rt fl).fs).files, e ∈ rt.fs.files) ∧
    (∀ e ∈ rt.fs.files, e ∈ ((removeFilesLoop baseDir rt fl).fs).files ∨
      ∃ f ∈ fl, e.1 = joinPath baseDir f) := by
  induction fl generalizing rt with
  | nil => exact ⟨rfl, fun e he => he, fun e he => Or.inl he⟩
  | cons f rest ih =>
    simp only [removeFilesLoop]
    by_cases hc : rt.fs.existsP (joinPath baseDir f)
    · rw [if_pos hc]
      rcases hr : osRemove rt.fs (joinPath baseDir f) with e | fs1
      · exact ⟨rfl, fun e he => he, fun e he => Or.inl he⟩
      · dsimp only
        rw [osRemove_ok_iff] at hr
        obtain ⟨hr1, hr2, rfl⟩ := hr
        set rt1 : Runtime :=
          { fs := FS.mk rt.fs.dirs
              (rt.fs.files.filter (fun e => e.1 ≠ joinPath baseDir f)),
            out := rt.out ++ [Msg.removedFile (joinPath baseDir f)],
            trace := rt.trace ++ [Event.removeCheck (joinPath baseDir f)] }
          with hrt1
        obtain ⟨ihd, ihs, ihb⟩ := ih rt1
        refine ⟨ihd, ?_, ?_⟩
        · intro e he
          have := ihs e he
          rw [hrt1] at this
          exact (List.mem_filter.mp this).1
        · intro e he
          by_cases h1 : e.1 = joinPath baseDir f
          · exact Or.inr ⟨f, List.mem_cons_self f rest, h1⟩
          · have hmem : e ∈ rt1.fs.files := by
              rw [hrt1]
              exact List.mem_filter.mpr ⟨he, by simp [h1]⟩
            rcases ihb e hmem with hin | ⟨g, hg, hge⟩
            · exact Or.inl hin
            · exact Or.inr ⟨g, List.mem_cons_of_mem f hg, hge⟩
    · rw [if_neg hc]
      obtain ⟨ihd, ihs, ihb⟩ :=
        ih { rt with trace := rt.trace ++ [Event.removeCheck (joinPath baseDir f)] }
      refine ⟨ihd, ihs, ?_⟩
      · intro e he
        rcases ihb e he with hin | ⟨g, hg, hge⟩
        · exact Or.inl hin
        · exact Or.inr ⟨g, List.mem_cons_of_mem f hg, hge⟩

theorem removeFilesLoop_anti (baseDir : FsPath) (rt : Runtime) (fl : List String)
    (q : FsPath) (h : ((removeFilesLoop baseDir rt fl).fs).existsP q) :
    rt.fs.existsP q := by
  obtain ⟨hd, hs, _⟩ := removeFilesLoop_fs_facts baseDir rt fl
  rcases h with hdir | hf
  · rcases hdir with rfl | hdir
    · exact rt.fs.existsP_nil
    · rw [hd] at hdir
      exact Or.inl (Or.inr hdir)
  · obtain ⟨e, he, rfl⟩ := List.mem_map.mp hf
    exact Or.inr (List.mem_map.mpr ⟨e, hs e he, rfl⟩)

theorem removeFilesLoop_ok_post (baseDir : FsPath) (rt rt' : Runtime)
    (fl : List String) (h : removeFilesLoop baseDir rt fl = .ok rt') :
    ∀ f ∈ fl, ¬ rt'.fs.existsP (joinPath baseDir f) := by
  induction fl generalizing rt with
  | nil => intro f hf; exact absurd hf (List.not_mem_nil f)
  | cons f rest ih =>
    simp only [removeFilesLoop] at h
    by_cases hc : rt.fs.existsP (joinPath baseDir f)
    · rw [if_pos hc] at h
      rcases hr : osRemove rt.fs (joinPath baseDir f) with e | fs1
      · rw [hr] at h
        exact absurd h (by simp)
      · rw [hr] at h
        dsimp only at h
        rw [osRemove_ok_iff] at hr
        obtain ⟨hr1, hr2, rfl⟩ := hr
        set rt1 : Runtime :=
          { fs := FS.mk rt.fs.dirs
              (rt.fs.files.filter (fun e => e.1 ≠ joinPath baseDir f)),
            out := rt.out ++ [Msg.removedFile (joinPath baseDir f)],
            trace := rt.trace ++ [Event.removeCheck (joinPath baseDir f)] }
          with hrt1
        intro g hg
        rcases List.mem_cons.mp hg with rfl | hgrest
        · intro hcontra
          have hstep : ¬ rt1.fs.existsP (joinPath baseDir g) := by
            rw [hrt1]
            rintro (hdir | hfile)
            · exact hr1 hdir
            · obtain ⟨e, he, heq⟩ := List.mem_map.mp hfile
              have := (List.mem_filter.mp he).2
              rw [heq] at this
              simp at this
          have hanti : rt1.fs.existsP (joinPath baseDir g) := by
            have := removeFilesLoop_anti baseDir rt1 rest (joinPath baseDir g)
            rw [h] at this
            exact this hcontra
          exact hstep hanti
        · exact ih rt1 h g hgrest
    · rw [if_neg hc] at h
      set rt1 : Runtime :=
        { rt with trace := rt.trace ++ [Event.removeCheck (joinPath baseDir f)] }
        with hrt1
      intro g hg
      rcases List.mem_cons.mp hg with rfl | hgrest
      · intro hcontra
        have hanti : rt1.fs.existsP (joinPath baseDir g) := by
          have := removeFilesLoop_anti baseDir rt1 rest (joinPath baseDir g)
          rw [h] at this
          exact this hcontra
        exact hc hanti
      · exact ih rt1 h g hgrest

theorem removeFilesLoop_ok_trace (baseDir : FsPath) (rt rt' : Runtime)
    (fl : List String) (h : removeFilesLoop baseDir rt fl = .ok rt') :
    rt'.trace = rt.trace ++
      fl.map (fun f => Event.removeCheck (joinPath baseDir f)) := by
  induction fl generalizing rt with
  | nil =>
    simp only [removeFilesLoop] at h
    cases h
    simp
  | cons f rest ih =>
    simp only [removeFilesLoop] at h
    by_cases hc : rt.fs.existsP (joinPath baseDir f)
    · rw [if_pos hc] at h
      rcases hr : osRemove rt.fs (joinPath baseDir f) with e | fs1
      · rw [hr] at h
        exact absurd h (by simp)
      · rw [hr] at h
        dsimp only at h
        rw [ih _ h]
        simp
    · rw [if_neg hc] at h
      rw [ih _ h]
      simp

/-
  Lemmas about create_folder_structure.
-/

theorem joinPath_parent (fs : FS) (folderPath : FsPath) (s : String)
    (hfolder : fs.existsP folderPath) :
    fs.existsP (joinPath folderPath s).dropLast ∨
      fs.existsP (joinPath folderPath s) := by
  by_cases hs : s = ""
  · right
    simpa [joinPath, hs] using hfolder
  · left
    rw [joinPath_ne _ _ hs, List.dropLast_concat]
    exact hfolder

theorem createSubfolders_skip (folderPath : FsPath) (rt : Runtime)
    (subs : List String)
    (h : ∀ s ∈ subs, rt.fs.existsP (joinPath folderPath s)) :
    createSubfolders folderPath rt subs =
      .ok { rt with trace := rt.trace ++
              subs.map (fun s => Event.createAttempt (joinPath folderPath s)) } := by
  induction subs generalizing rt with
  | nil => simp [createSubfolders]
  | cons s rest ih =>
    simp only [createSubfolders]
    rw [createFolderWithInit_skip rt _ (h s (List.mem_cons_self s rest))]
    simp only [RunResult.andThen]
    rw [ih { rt with trace := rt.trace ++ [Event.createAttempt (joinPath folderPath s)] }
        (fun g hg => h g (List.mem_cons_of_mem s hg))]
    simp

theorem createSubfolders_ok_facts (folderPath : FsPath) (rt rt' : Runtime)
    (subs : List String) (hfolder : rt.fs.existsP folderPath)
    (h : createSubfolders folderPath rt subs = .ok rt') :
    (∀ q, rt.fs.existsP q → rt'.fs.existsP q) ∧
    (∀ s ∈ subs, rt'.fs.existsP (joinPath folderPath s)) ∧
    (∀ q, rt'.fs.existsP q → rt.fs.existsP q ∨
      ∃ s ∈ subs, q = joinPath folderPath s ∨
        q = joinPath folderPath s ++ ["__init__.py"]) := by
  induction subs generalizing rt with
  | nil =>
    simp only [createSubfolders] at h
    cases h
    exact ⟨fun q hq => hq, fun s hs => absurd hs (List.not_mem_nil s),
      fun q hq => Or.inl hq⟩
  | cons s rest ih =>
    simp only [createSubfolders] at h
    rcases hcf : createFolderWithInit rt (joinPath folderPath s) with rtm | ⟨rtm, e⟩
    · rw [hcf] at h
      simp only [RunResult.andThen] at h
      have facts1 := createFolderWithInit_ok_facts rt _ rtm
        (joinPath_parent rt.fs folderPath s hfolder) hcf
      have hfolder1 : rtm.fs.existsP folderPath := facts1.1 _ hfolder
      have facts2 := ih rtm hfolder1 h
      refine ⟨fun q hq => facts2.1 q (facts1.1 q hq), ?_, ?_⟩
      · intro g hg
        rcases List.mem_cons.mp hg with rfl | hgrest
        · exact facts2.1 _ facts1.2.1
        · exact facts2.2.1 g hgrest
      · intro q hq
        rcases facts2.2.2 q hq with hin | ⟨g, hg, hge⟩
        · rcases facts1.2.2 q hin with hin2 | hp | hpi
          · exact Or.inl hin2
          · exact Or.inr ⟨s, List.mem_cons_self s rest, Or.inl hp⟩
          · exact Or.inr ⟨s, List.mem_cons_self s rest, Or.inr hpi⟩
        · exact Or.inr ⟨g, List.mem_cons_of_mem s hg, hge⟩
    · rw [hcf] at h
      exact absurd h (by simp [RunResult.andThen])

theorem createSubfolders_ok_trace (folderPath : FsPath) (rt rt' : Runtime)
    (subs : List String) (h : createSubfolders folderPath rt subs = .ok rt') :
    rt'.trace = rt.trace ++
      subs.map (fun s => Event.createAttempt (joinPath folderPath s)) := by
  induction subs generalizing rt with
  | nil =>
    simp only [createSubfolders] at h
    cases h
    simp
  | cons s rest ih =>
    simp only [createSubfolders] at h
    rcases hcf : createFolderWithInit rt (joinPath folderPath s) with rtm | ⟨rtm, e⟩
    · rw [hcf] at h
      simp only [RunResult.andThen] at h
      rw [ih rtm h, createFolderWithInit_ok_trace rt _ rtm hcf]
      simp
    · rw [hcf] at h
      exact absurd h (by simp [RunResult.andThen])

theorem createSubfolders_frame (folderPath : FsPath) (rt : Runtime)
    (subs : List String) (hc : rt.fs.filesClosed) :
    extendsTo rt.fs ((createSubfolders folderPath rt subs).fs) ∧
    ((createSubfolders folderPath rt subs).fs).filesClosed := by
  induction subs generalizing rt with
  | nil => exact ⟨extendsTo_refl _, hc⟩
  | cons s rest ih =>
    simp only [createSubfolders]
    have frame1 := createFolderWithInit_frame rt (joinPath folderPath s) hc
    rcases hcf : createFolderWithInit rt (joinPath folderPath s) with rtm | ⟨rtm, e⟩
    · rw [hcf] at frame1
      simp only [RunResult.fs] at frame1
      simp only [RunResult.andThen]
      have frame2 := ih rtm frame1.2
      exact ⟨extendsTo_trans frame1.1 frame2.1, frame2.2⟩
    · rw [hcf] at frame1
      simp only [RunResult.fs] at frame1
      simp only [RunResult.andThen, RunResult.fs]
      exact frame1

theorem createFoldersLoop_skip (baseDir : FsPath) (rt : Runtime)
    (tbl : List (String × List String))
    (h : ∀ p ∈ loopTargets baseDir tbl, rt.fs.existsP p) :
    createFoldersLoop baseDir rt tbl =
      .ok { rt with trace := rt.trace ++
              (loopTargets baseDir tbl).map Event.createAttempt } := by
  induction tbl generalizing rt with
  | nil => simp [createFoldersLoop, loopTargets]
  | cons entry rest ih =>
    obtain ⟨folder, subs⟩ := entry
    have hfolder : rt.fs.existsP (joinPath baseDir folder) :=
      h _ (by simp [loopTargets])
    simp only [createFoldersLoop]
    rw [createFolderWithInit_skip rt _ hfolder]
    simp only [RunResult.andThen]
    rw [createSubfolders_skip _ _ subs (by
      intro s hs
      exact h _ (by
        simp only [loopTargets, List.mem_cons, List.mem_append, List.mem_map]
        exact Or.inr (Or.inl ⟨s, hs, rfl⟩)))]
    simp only [RunResult.andThen]
    rw [ih _ (by
      intro p hp
      exact h p (by
        simp only [loopTargets, List.mem_cons, List.mem_append]
        exact Or.inr (Or.inr hp)))]
    simp [loopTargets]

theorem createFoldersLoop_ok_facts (baseDir : FsPath) (rt rt' : Runtime)
    (tbl : List (String × List String)) (hbase : rt.fs.existsP baseDir)
    (h : createFoldersLoop baseDir rt tbl = .ok rt') :
    (∀ q, rt.fs.existsP q → rt'.fs.existsP q) ∧
    (∀ p ∈ loopTargets baseDir tbl, rt'.fs.existsP p) ∧
    (∀ q, rt'.fs.existsP q → rt.fs.existsP q ∨
      ∃ p ∈ loopTargets baseDir tbl, q = p ∨ q = p ++ ["__init__.py"]) := by
  induction tbl generalizing rt with
  | nil =>
    simp only [createFoldersLoop] at h
    cases h
    exact ⟨fun q hq => hq, fun p hp => absurd hp (List.not_mem_nil p),
      fun q hq => Or.inl hq⟩
  | cons entry rest ih =>
    obtain ⟨folder, subs⟩ := entry
    simp only [createFoldersLoop] at h
    rcases hcf : createFolderWithInit rt (joinPath baseDir folder)
      with rtm | ⟨rtm, e⟩
    · rw [hcf] at h
      simp only [RunResult.andThen] at h
      have facts1 := createFolderWithInit_ok_facts rt _ rtm
        (joinPath_parent rt.fs baseDir folder hbase) hcf
      rcases hcs : createSubfolders (joinPath baseDir folder) rtm subs
        with rtn | ⟨rtn, e⟩
      · rw [hcs] at h
        simp only [RunResult.andThen] at h
        have facts2 := createSubfolders_ok_facts _ rtm rtn subs facts1.2.1 hcs
        have hbase2 : rtn.fs.existsP baseDir := facts2.1 _ (facts1.1 _ hbase)
        have facts3 := ih rtn hbase2 h
        refine ⟨fun q hq => facts3.1 q (facts2.1 q (facts1.1 q hq)), ?_, ?_⟩
        · intro p hp
          simp only [loopTargets, List.mem_cons, List.mem_append,
            List.mem_map] at hp
          rcases hp with rfl | ⟨s, hs, rfl⟩ | hp
          · exact facts3.1 _ (facts2.1 _ facts1.2.1)
          · exact facts3.1 _ (facts2.2.1 s hs)
          · exact facts3.2.1 p hp
        · intro q hq
          rcases facts3.2.2 q hq with hin | ⟨p, hp, hpe⟩
          · rcases facts2.2.2 q hin with hin2 | ⟨s, hs, hse⟩
            · rcases facts1.2.2 q hin2 with hin3 | hp | hpi
              · exact Or.inl hin3
              · exact Or.inr ⟨joinPath baseDir folder,
                  by simp [loopTargets], Or.inl hp⟩
              · exact Or.inr ⟨joinPath baseDir folder,
                  by simp [loopTargets], Or.inr hpi⟩
            · refine Or.inr ⟨joinPath (joinPath baseDir folder) s, ?_, hse⟩
              simp only [loopTargets, List.mem_cons, List.mem_append,
                List.mem_map]
              exact Or.inr (Or.inl ⟨s, hs, rfl⟩)
          · refine Or.inr ⟨p, ?_, hpe⟩
            simp only [loopTargets, List.mem_cons, List.mem_append]
            exact Or.inr (Or.inr hp)
      · rw [hcs] at h
        exact absurd h (by simp [RunResult.andThen])
    · rw [hcf] at h
      exact absurd h (by simp [RunResult.andThen])

theorem createFoldersLoop_ok_trace (baseDir : FsPath) (rt rt' : Runtime)
    (tbl : List (String × List String))
    (h : createFoldersLoop baseDir rt tbl = .ok rt') :
    rt'.trace = rt.trace ++ (loopTargets baseDir tbl).map Event.createAttempt := by
  induction tbl generalizing rt with
  | nil =>
    simp only [createFoldersLoop] at h
    cases h
    simp [loopTargets]
  | cons entry rest ih =>
    obtain ⟨folder, subs⟩ := entry
    simp only [createFoldersLoop] at h
    rcases hcf : createFolderWithInit rt (joinPath baseDir folder)
      with rtm | ⟨rtm, e⟩
    · rw [hcf] at h
      simp only [RunResult.andThen] at h
      rcases hcs : createSubfolders (joinPath baseDir folder) rtm subs
        with rtn | ⟨rtn, e⟩
      · rw [hcs] at h
        simp only [RunResult.andThen] at h
        rw [ih rtn h, createSubfolders_ok_trace _ rtm rtn subs hcs,
          createFolderWithInit_ok_trace rt _ rtm hcf]
        simp [loopTargets]
      · rw [hcs] at h
        exact absurd h (by simp [RunResult.andThen])
    · rw [hcf] at h
      exact absurd h (by simp [RunResult.andThen])

theorem createFoldersLoop_frame (baseDir : FsPath) (rt : Runtime)
    (tbl : List (String × List String)) (hc : rt.fs.filesClosed) :
    extendsTo rt.fs ((createFoldersLoop baseDir rt tbl).fs) ∧
    ((createFoldersLoop baseDir rt tbl).fs).filesClosed := by
  induction tbl generalizing rt with
  | nil => exact ⟨extendsTo_refl _, hc⟩
  | cons entry rest ih =>
    obtain ⟨folder, subs⟩ := entry
    simp only [createFoldersLoop]
    have frame1 := createFolderWithInit_frame rt (joinPath baseDir folder) hc
    rcases hcf : createFolderWithInit rt (joinPath baseDir folder)
      with rtm | ⟨rtm, e⟩
    · rw [hcf] at frame1
      simp only [RunResult.fs] at frame1
      simp only [RunResult.andThen]
      have frame2 := createSubfolders_frame (joinPath baseDir folder) rtm subs
        frame1.2
      rcases hcs : createSubfolders (joinPath baseDir folder) rtm subs
        with rtn | ⟨rtn, e⟩
      · rw [hcs] at frame2
        simp only [RunResult.fs] at frame2
        simp only [RunResult.andThen]
        have frame3 := ih rtn frame2.2
        exact ⟨extendsTo_trans frame1.1 (extendsTo_trans frame2.1 frame3.1),
          frame3.2⟩
      · rw [hcs] at frame2
        simp only [RunResult.fs] at frame2
        simp only [RunResult.andThen, RunResult.fs]
        exact ⟨extendsTo_trans frame1.1 frame2.1, frame2.2⟩
    · rw [hcf] at frame1
      simp only [RunResult.fs] at frame1
      simp only [RunResult.andThen, RunResult.fs]
      exact frame1

/-
  Path arithmetic and table lemmas used by the claim theorems.
-/

@[simp]
theorem dropLast_append_one {α : Type} (l : List α) (a : α) :
    (l ++ [a]).dropLast = l := List.dropLast_concat

@[simp]
theorem dropLast_append_two {α : Type} (l : List α) (a b : α) :
    (l ++ [a, b]).dropLast = l ++ [a] := by
  rw [show l ++ [a, b] = (l ++ [a]) ++ [b] by simp, List.dropLast_concat]

@[simp]
theorem dropLast_append_three {α : Type} (l : List α) (a b c : α) :
    (l ++ [a, b, c]).dropLast = l ++ [a, b] := by
  rw [show l ++ [a, b, c] = (l ++ [a, b]) ++ [c] by simp, List.dropLast_concat]

theorem defaultFiles_ne_empty : ∀ f ∈ defaultFiles, f ≠ "" := by decide

theorem attempt_sub_scaffold : ∀ r ∈ attemptRels, r ∈ scaffoldRels := by decide

theorem scaffold_sub_attempt : ∀ r ∈ scaffoldRels, r ∈ attemptRels := by decide

theorem defaults_vs_rels :
    ∀ f ∈ defaultFiles, ∀ rel ∈ attemptRels,
      ([f] : FsPath) ≠ rel ∧ ([f] : FsPath) ≠ rel ++ ["__init__.py"] := by decide

theorem allCreatePaths_map (base : FsPath) :
    allCreatePaths base = attemptRels.map (fun rel => base ++ rel) := by
  simp [allCreatePaths, loopTargets, structureTable, attemptRels, joinPath]

theorem default_ne_created (base : FsPath) (f : String) (hf : f ∈ defaultFiles) :
    ∀ p ∈ allCreatePaths base,
      joinPath base f ≠ p ∧ joinPath base f ≠ p ++ ["__init__.py"] := by
  intro p hp
  rw [allCreatePaths_map] at hp
  obtain ⟨rel, hrel, rfl⟩ := List.mem_map.mp hp
  rw [joinPath_ne base f (defaultFiles_ne_empty f hf)]
  constructor
  · intro hcontra
    rw [List.append_right_inj] at hcontra
    exact (defaults_vs_rels f hf rel hrel).1 hcontra
  · intro hcontra
    rw [List.append_assoc, List.append_right_inj] at hcontra
    exact (defaults_vs_rels f hf rel hrel).2 hcontra

theorem joinPath_default_ne_base (base : FsPath) (f : String)
    (hf : f ∈ defaultFiles) : joinPath base f ≠ base := by
  rw [joinPath_ne base f (defaultFiles_ne_empty f hf)]
  simp [List.append_right_eq_self]

theorem enumsPath_eq (base : FsPath) :
    joinPath (joinPath (joinPath base "models") "helper") "enums" =
      base ++ ["models", "helper", "enums"] := by
  simp [joinPath]

theorem helper_mem_loopTargets (base : FsPath) :
    base ++ ["models", "helper"] ∈ loopTargets base structureTable := by
  simp [loopTargets, structureTable, joinPath]

theorem handle_not_exists (fs : FS) (appName : String)
    (h : ¬ fs.existsP (joinPath [] appName)) :
    handle fs appName =
      .ok { fs := fs, out := [Msg.errorNoApp appName], trace := [] } := by
  simp [handle, h]

theorem handle_ok_parts (fs : FS) (appName : String) (rt : Runtime)
    (hex : fs.existsP (joinPath [] appName))
    (h : handle fs appName = .ok rt) :
    ∃ rt1 rt2 rt3,
      removeDefaultFiles { fs := fs, out := [], trace := [] }
          (joinPath [] appName) = .ok rt1 ∧
      createFoldersLoop (joinPath [] appName) rt1 structureTable = .ok rt2 ∧
      createFolderWithInit rt2
          ((joinPath [] appName) ++ ["models", "helper", "enums"]) = .ok rt3 ∧
      rt = { rt3 with out := rt3.out ++ [Msg.structureCreated appName] } := by
  simp only [handle] at h
  rw [if_neg (not_not_intro hex)] at h
  rw [enumsPath_eq] at h
  rcases hr1 : removeDefaultFiles { fs := fs, out := [], trace := [] }
      (joinPath [] appName) with rt1 | ⟨rt1, e1⟩
  · rw [hr1] at h
    simp only [RunResult.andThen] at h
    simp only [createFolderStructure] at h
    rcases hr2 : createFoldersLoop (joinPath [] appName) rt1 structureTable
      with rt2 | ⟨rt2, e2⟩
    · rw [hr2] at h
      simp only [RunResult.andThen] at h
      rcases hr3 : createFolderWithInit rt2
          ((joinPath [] appName) ++ ["models", "helper", "enums"])
        with rt3 | ⟨rt3, e3⟩
      · rw [hr3] at h
        simp only [RunResult.andThen] at h
        cases h
        exact ⟨rt1, rt2, rt3, rfl, hr2, hr3, rfl⟩
      · rw [hr3] at h
        exact absurd h (by simp [RunResult.andThen])
    · rw [hr2] at h
      exact absurd h (by simp [RunResult.andThen])
  · rw [hr1] at h
    exact absurd h (by simp [RunResult.andThen])

/-
  Claim theorems.
-/

/-- Claim C2: for every app name whose directory does not exist, the run
performs zero filesystem mutations (the filesystem is returned unchanged),
emits exactly one error message naming the app, and terminates normally
(`.ok`, i.e. success status, no raised error). -/
theorem C2_missing_target (fs : FS) (appName : String)
    (h : ¬ fs.existsP (joinPath [] appName)) :
    handle fs appName =
      .ok { fs := fs, out := [Msg.errorNoApp appName], trace := [] } :=
  handle_not_exists fs appName h

/-- Witness for C2 at the concrete input `myapp` on an empty filesystem. -/
theorem C2_missing_target_witness :
    ¬ (FS.mk [] []).existsP (joinPath [] "myapp") ∧
    handle (FS.mk [] []) "myapp" =
      .ok { fs := FS.mk [] [], out := [Msg.errorNoApp "myapp"], trace := [] } :=
  ⟨by decide, C2_missing_target (FS.mk [] []) "myapp" (by decide)⟩

/-- Claim C4: for every path that already exists as any filesystem entry,
`create_folder_with_init` changes nothing (same filesystem, same output;
only the instrumentation trace records the attempt); in particular a
pre-existing folder that lacks the marker file still lacks it afterwards. -/
theorem C4_existing_path_untouched (rt : Runtime) (path : FsPath)
    (h : rt.fs.existsP path) :
    createFolderWithInit rt path =
      .ok { rt with trace := rt.trace ++ [Event.createAttempt path] } ∧
    (¬ rt.fs.isFile (joinPath path "__init__.py") →
      ¬ ((createFolderWithInit rt path).fs).isFile
          (joinPath path "__init__.py")) := by
  have hskip := createFolderWithInit_skip rt path h
  refine ⟨hskip, ?_⟩
  intro hni
  rw [hskip]
  exact hni

/-- Witness for C4: the folder `app/admin` exists without a marker file and
is left untouched. -/
theorem C4_existing_path_untouched_witness :
    createFolderWithInit
        { fs := FS.mk [["app", "admin"], ["app"]] [], out := [], trace := [] }
        ["app", "admin"] =
      .ok { fs := FS.mk [["app", "admin"], ["app"]] [], out := [],
            trace := [Event.createAttempt ["app", "admin"]] } ∧
    (¬ (FS.mk [["app", "admin"], ["app"]] []).isFile
        (joinPath ["app", "admin"] "__init__.py") →
      ¬ ((createFolderWithInit
            { fs := FS.mk [["app", "admin"], ["app"]] [], out := [], trace := [] }
            ["app", "admin"]).fs).isFile
          (joinPath ["app", "admin"] "__init__.py")) :=
  C4_existing_path_untouched
    { fs := FS.mk [["app", "admin"], ["app"]] [], out := [], trace := [] }
    ["app", "admin"] (by decide)

/-- Claim C5: `remove_default_files` iterates exactly the four names
`models.py`, `admin.py`, `tests.py`, `views.py` in that order (visible in the
check trace and in the warning order); for each, the file directly under
`base_dir` is deleted with one warning naming its path if and only if it
exists, a missing file is skipped silently, and every file whose path is not
one of the four root paths — e.g. a same-named file inside a subfolder — is
kept.  Stated under the (real-filesystem) assumption that none of the four
root paths is a directory. -/
theorem C5_remove_default_files (rt : Runtime) (baseDir : FsPath)
    (hnd : ∀ f ∈ defaultFiles, ¬ rt.fs.isDir (joinPath baseDir f)) :
    removeDefaultFiles rt baseDir =
      .ok { fs := FS.mk rt.fs.dirs
              (rt.fs.files.filter
                (fun e => e.1 ∉ defaultFiles.map (joinPath baseDir))),
            out := rt.out ++
              (defaultFiles.filter
                (fun f => rt.fs.existsP (joinPath baseDir f))).map
                (fun f => Msg.removedFile (joinPath baseDir f)),
            trace := rt.trace ++
              defaultFiles.map (fun f => Event.removeCheck (joinPath baseDir f)) } ∧
    (∀ e ∈ rt.fs.files, (∀ f ∈ defaultFiles, e.1 ≠ joinPath baseDir f) →
      e ∈ ((removeDefaultFiles rt baseDir).fs).files) := by
  have hrun := removeFilesLoop_run baseDir rt defaultFiles hnd (by decide)
  refine ⟨hrun, ?_⟩
  intro e he hne
  rw [show removeDefaultFiles rt baseDir = removeFilesLoop baseDir rt defaultFiles
    from rfl, hrun]
  simp only [RunResult.fs]
  refine List.mem_filter.mpr ⟨he, ?_⟩
  simp only [decide_eq_true_eq]
  intro hcontra
  obtain ⟨f, hf, hfe⟩ := List.mem_map.mp hcontra
  exact hne f hf hfe.symm

/-- Witness for C5: `app/models.py` exists and is removed with one warning;
`app/tests.py` is absent and skipped; `app/api/views.py` survives. -/
theorem C5_remove_default_files_witness :
    removeDefaultFiles
        { fs := FS.mk [["app"], ["app", "api"]]
            [(["app", "models.py"], "m"), (["app", "api", "views.py"], "v")],
          out := [], trace := [] } ["app"] =
      .ok { fs := FS.mk [["app"], ["app", "api"]]
              ((([(["app", "models.py"], "m"),
                  (["app", "api", "views.py"], "v")] : List (FsPath × String)).filter
                (fun e => e.1 ∉ defaultFiles.map (joinPath ["app"])))),
            out := [] ++
              (defaultFiles.filter
                (fun f => (FS.mk [["app"], ["app", "api"]]
                    [(["app", "models.py"], "m"),
                     (["app", "api", "views.py"], "v")]).existsP
                  (joinPath ["app"] f))).map
                (fun f => Msg.removedFile (joinPath ["app"] f)),
            trace := [] ++
              defaultFiles.map (fun f => Event.removeCheck (joinPath ["app"] f)) } ∧
    (∀ e ∈ [(["app", "models.py"], "m"), (["app", "api", "views.py"], "v")],
      (∀ f ∈ defaultFiles, e.1 ≠ joinPath ["app"] f) →
      e ∈ ((removeDefaultFiles
        { fs := FS.mk [["app"], ["app", "api"]]
            [(["app", "models.py"], "m"), (["app", "api", "views.py"], "v")],
          out := [], trace := [] } ["app"]).fs).files) :=
  C5_remove_default_files
    { fs := FS.mk [["app"], ["app", "api"]]
        [(["app", "models.py"], "m"), (["app", "api", "views.py"], "v")],
      out := [], trace := [] } ["app"] (by decide)

/-
  Full characterization of makedirs on a missing path, for claim C7.
-/

theorem missingChain_length_le (fs : FS) (rp : List String) :
    ∀ q ∈ missingChain fs rp, q.length ≤ rp.length := by
  induction rp with
  | nil => intro q hq; exact absurd hq (List.not_mem_nil q)
  | cons c rest ih =>
    intro q hq
    simp only [missingChain, List.mem_cons] at hq
    rcases hq with rfl | hq
    · simp
    · by_cases hcond : rest.reverse ≠ [] ∧ ¬ fs.existsP rest.reverse
      · rw [if_pos hcond] at hq
        exact le_trans (ih q hq) (by simp)
      · rw [if_neg hcond] at hq
        exact absurd hq (List.not_mem_nil q)

theorem missingChain_head_mem (fs : FS) (rest : List String) (h : rest ≠ []) :
    rest.reverse ∈ missingChain fs rest := by
  cases rest with
  | nil => exact absurd rfl h
  | cons c' rest' =>
    rw [List.reverse_cons]
    exact List.mem_cons_self _ _

theorem makedirsRev_eq (fs : FS) (rp : List String) (hrp : rp ≠ [])
    (hne : ¬ fs.existsP rp.reverse)
    (hchain : ∀ k, ¬ fs.isFile (rp.reverse.take k)) :
    makedirsRev fs rp =
      (FS.mk (missingChain fs rp ++ fs.dirs) fs.files, none) := by
  induction rp with
  | nil => exact absurd rfl hrp
  | cons c rest ih =>
    rw [List.reverse_cons] at hne hchain
    simp only [makedirsRev]
    by_cases hcond : rest.reverse ≠ [] ∧ ¬ fs.existsP rest.reverse
    · rw [if_pos hcond]
      have hrest : rest ≠ [] := by
        intro hcontra
        rw [hcontra] at hcond
        exact hcond.1 rfl
      have hchain' : ∀ k, ¬ fs.isFile (rest.reverse.take k) := by
        intro k
        rcases le_or_lt k rest.length with hk | hk
        · have := hchain k
          rwa [List.take_append_of_le_length (by simpa using hk)] at this
        · rw [List.take_of_length_le (by simpa using hk.le)]
          have := hchain rest.length
          rwa [List.take_append_of_le_length (by simp),
            List.take_of_length_le (by simp)] at this
      rw [ih hrest hcond.2 hchain']
      dsimp only
      have hpd : (FS.mk (missingChain fs rest ++ fs.dirs) fs.files).isDir
          (rest.reverse ++ [c]).dropLast := by
        rw [dropLast_append_one]
        exact Or.inr (List.mem_append_left _ (missingChain_head_mem fs rest hrest))
      have hpe : ¬ (FS.mk (missingChain fs rest ++ fs.dirs) fs.files).existsP
          (rest.reverse ++ [c]) := by
        rintro ((habs | hmem) | hfile)
        · exact absurd habs (by simp)
        · rcases List.mem_append.mp hmem with hchainmem | hdirs
          · have hlen := missingChain_length_le fs rest _ hchainmem
            simp only [List.length_append, List.length_reverse,
              List.length_cons, List.length_nil] at hlen
            omega
          · exact hne (Or.inl (Or.inr hdirs))
        · exact hne (Or.inr hfile)
      have hk : mkdir (FS.mk (missingChain fs rest ++ fs.dirs) fs.files)
          (rest.reverse ++ [c]) =
          .ok { FS.mk (missingChain fs rest ++ fs.dirs) fs.files with
                dirs := (rest.reverse ++ [c]) ::
                  (missingChain fs rest ++ fs.dirs) } :=
        (mkdir_ok_iff _ _ _).mpr ⟨hpd, hpe, rfl⟩
      rw [hk]
      simp [missingChain, hcond]
    · rw [if_neg hcond]
      dsimp only
      have hpd : fs.isDir (rest.reverse ++ [c]).dropLast := by
        rw [dropLast_append_one]
        by_cases hnil : rest.reverse = []
        · rw [hnil]
          exact Or.inl rfl
        · have hex : fs.existsP rest.reverse := by
            by_contra hq
            exact hcond ⟨hnil, hq⟩
          have hnf : ¬ fs.isFile rest.reverse := by
            have := hchain rest.length
            rwa [List.take_append_of_le_length (by simp),
              List.take_of_length_le (by simp)] at this
          exact hex.resolve_right hnf
      have hpe : ¬ fs.existsP (rest.reverse ++ [c]) := hne
      have hk : mkdir fs (rest.reverse ++ [c]) =
          .ok { fs with dirs := (rest.reverse ++ [c]) :: fs.dirs } :=
        (mkdir_ok_iff _ _ _).mpr ⟨hpd, hpe, rfl⟩
      rw [hk]
      have hmc : missingChain fs (c :: rest) = [rest.reverse ++ [c]] := by
        simp only [missingChain]
        rw [if_neg hcond]
      rw [hmc]
      simp

/-- Claim C7: for every path that does not exist (and, as on a real
filesystem, no prefix of which is a file, and whose prospective marker path
is not already a file), `create_folder_with_init` creates the directory
together with the chain of its missing parents, creates exactly one empty
marker file `__init__.py` directly inside the leaf directory (the parents
created along the way receive none: the file list gains exactly the one
entry), and emits exactly one success message naming the created path. -/
theorem C7_create_missing_path (rt : Runtime) (path : FsPath)
    (h1 : ¬ rt.fs.existsP path)
    (h2 : ∀ k ≤ path.length, ¬ rt.fs.isFile (path.take k))
    (h3 : ¬ rt.fs.isFile (path ++ ["__init__.py"])) :
    createFolderWithInit rt path =
      .ok { fs := FS.mk (missingChain rt.fs path.reverse ++ rt.fs.dirs)
                        ((path ++ ["__init__.py"], "") :: rt.fs.files),
            out := rt.out ++ [Msg.created path],
            trace := rt.trace ++ [Event.createAttempt path] } := by
  have hne : path ≠ [] := fun hp => h1 (hp ▸ rt.fs.existsP_nil)
  have hchain : ∀ k, ¬ rt.fs.isFile (path.reverse.reverse.take k) := by
    intro k
    rw [List.reverse_reverse]
    rcases le_or_lt k path.length with hk | hk
    · exact h2 k hk
    · rw [List.take_of_length_le hk.le]
      exact h2 path.length le_rfl ∘ (by rw [List.take_of_length_le le_rfl]; exact id)
  have hmk : makedirs rt.fs path =
      (FS.mk (missingChain rt.fs path.reverse ++ rt.fs.dirs) rt.fs.files, none) := by
    unfold makedirs
    exact makedirsRev_eq rt.fs path.reverse (by simpa using hne)
      (by rwa [List.reverse_reverse]) hchain
  simp only [createFolderWithInit]
  rw [if_pos h1, hmk]
  dsimp only
  rw [joinPath_ne path _ initName_ne_empty]
  have hfilter : rt.fs.files.filter
      (fun e => e.1 ≠ path ++ ["__init__.py"]) = rt.fs.files := by
    rw [List.filter_eq_self]
    intro e he
    simp only [ne_eq, decide_not, Bool.not_eq_eq_eq_not, Bool.not_true,
      decide_eq_false_iff_not]
    exact fun hcontra => h3 (List.mem_map.mpr ⟨e, he, hcontra⟩)
  simp only [writeFile, hfilter, RunResult.ok.injEq]

/-- Witness for C7: creating `app/x/y` when only `app/` exists creates the
missing parent `app/x`, the leaf `app/x/y`, and a single marker file in the
leaf only. -/
theorem C7_create_missing_path_witness :
    createFolderWithInit
        { fs := FS.mk [["app"]] [], out := [], trace := [] } ["app", "x", "y"] =
      .ok { fs := FS.mk
              (missingChain (FS.mk [["app"]] []) (["app", "x", "y"] : FsPath).reverse ++
                [["app"]])
              ((["app", "x", "y"] ++ ["__init__.py"], "") :: []),
            out := [] ++ [Msg.created ["app", "x", "y"]],
            trace := [] ++ [Event.createAttempt ["app", "x", "y"]] } :=
  C7_create_missing_path
    { fs := FS.mk [["app"]] [], out := [], trace := [] } ["app", "x", "y"]
    (by decide) (by decide) (by decide)

theorem createFolderWithInit_err_parent (rt : Runtime) (path : FsPath)
    (h1 : ¬ rt.fs.existsP path) (hpar : rt.fs.existsP path.dropLast)
    (h2 : ¬ rt.fs.isDir path.dropLast) :
    createFolderWithInit rt path =
      .err { rt with trace := rt.trace ++ [Event.createAttempt path] }
        "NotADirectoryError" := by
  have hne : path ≠ [] := fun hp => h1 (hp ▸ rt.fs.existsP_nil)
  have hk : mkdir rt.fs path = .error "NotADirectoryError" := by
    unfold mkdir
    rw [if_pos h2]
  simp only [createFolderWithInit]
  rw [if_pos h1, makedirs_parent rt.fs path hne hpar, hk]

/-- Claim C8: when the target `base_dir` exists as a regular file (in a
well-formed filesystem), the run does not report the app as missing; it
proceeds through the four default-file checks (all skipped: a file has no
children) and into the first creation attempt (`admin`), which aborts with
an uncaught `NotADirectoryError` — no message is ever emitted. -/
theorem C8_file_target_proceeds (fs : FS) (appName : String) (hwf : fs.Wf)
    (hfile : fs.isFile (joinPath [] appName)) :
    handle fs appName =
      .err { fs := fs, out := [],
             trace := defaultFiles.map
                 (fun f => Event.removeCheck (joinPath (joinPath [] appName) f)) ++
               [Event.createAttempt (joinPath (joinPath [] appName) "admin")] }
        "NotADirectoryError" := by
  set base := joinPath [] appName with hbase
  obtain ⟨hwfd, hwff, hwfdisj⟩ := hwf
  have hnotdir : ¬ fs.isDir base := by
    rintro (hnil | hmem)
    · obtain ⟨e, he, heq⟩ := List.mem_map.mp hfile
      rw [hnil] at heq
      exact (hwff e he).1 heq
    · exact hwfdisj base hmem hfile
  have hchild : ∀ s : String, ¬ fs.existsP (base ++ [s]) := by
    intro s
    rintro ((hnil | hmem) | hfile2)
    · exact absurd hnil (by simp)
    · have := (hwfd _ hmem).2
      rw [dropLast_append_one] at this
      exact hnotdir this
    · obtain ⟨e, he, heq⟩ := List.mem_map.mp hfile2
      have := (hwff e he).2
      rw [heq, dropLast_append_one] at this
      exact hnotdir this
  have hex : fs.existsP base := Or.inr hfile
  simp only [handle]
  rw [if_neg (not_not_intro hex)]
  rw [show removeDefaultFiles { fs := fs, out := [], trace := [] } base =
    removeFilesLoop base { fs := fs, out := [], trace := [] } defaultFiles
    from rfl]
  rw [removeFilesLoop_skip base _ defaultFiles (by
    intro f hf
    rw [joinPath_ne base f (defaultFiles_ne_empty f hf)]
    exact hchild f)]
  simp only [RunResult.andThen]
  simp only [createFolderStructure, structureTable, createFoldersLoop]
  rw [createFolderWithInit_err_parent _ _
    (by rw [joinPath_ne base "admin" (by decide)]; exact hchild "admin")
    (by rw [joinPath_ne base "admin" (by decide), dropLast_append_one]; exact hex)
    (by rw [joinPath_ne base "admin" (by decide), dropLast_append_one];
        exact hnotdir)]
  simp [RunResult.andThen]

/-- Witness for C8: `myapp` exists as a regular file. -/
theorem C8_file_target_proceeds_witness :
    handle (FS.mk [] [(["myapp"], "text")]) "myapp" =
      .err { fs := FS.mk [] [(["myapp"], "text")], out := [],
             trace := defaultFiles.map
                 (fun f => Event.removeCheck (joinPath (joinPath [] "myapp") f)) ++
               [Event.createAttempt (joinPath (joinPath [] "myapp") "admin")] }
        "NotADirectoryError" :=
  C8_file_target_proceeds (FS.mk [] [(["myapp"], "text")]) "myapp"
    (by decide) (by decide)

/-- The filesystem produced by a run on a fresh, empty target `base`: the 24
scaffold directories (most recently created first) above the target itself,
and one empty marker file per created directory. -/
def scaffoldedFS (base : FsPath) : FS :=
  FS.mk ((allCreatePaths base).reverse ++ [base])
        (((allCreatePaths base).map (fun p => (p ++ ["__init__.py"], ""))).reverse)

/-- The console output of a run on a fresh, empty target: one creation
message per scaffold path in attempt order, then the final success. -/
def scaffoldOut (base : FsPath) (appName : String) : List Msg :=
  (allCreatePaths base).map Msg.created ++ [Msg.structureCreated appName]

/-- Claim C6: in every completed run on an existing target, the recorded
operation order is fixed: the four default-file checks in list order first,
then the 24 creation attempts in structure-table order (each folder before
its subfolders), then the special-case path `models/helper/enums`, and the
final overall success message is the last message emitted. -/
theorem C6_operation_order (fs : FS) (appName : String) (rt : Runtime)
    (hex : fs.existsP (joinPath [] appName))
    (h : handle fs appName = .ok rt) :
    rt.trace = runTrace (joinPath [] appName) ∧
    ∃ pre, rt.out = pre ++ [Msg.structureCreated appName] := by
  obtain ⟨rt1, rt2, rt3, h1, h2, h3, rfl⟩ := handle_ok_parts fs appName rt hex h
  constructor
  · have t1 := removeFilesLoop_ok_trace (joinPath [] appName)
      { fs := fs, out := [], trace := [] } rt1 defaultFiles h1
    have t2 := createFoldersLoop_ok_trace (joinPath [] appName) rt1 rt2
      structureTable h2
    have t3 := createFolderWithInit_ok_trace rt2 _ rt3 h3
    show rt3.trace = _
    rw [t3, t2, t1]
    simp [runTrace, allCreatePaths, enumsPath_eq]
  · exact ⟨rt3.out, rfl⟩

/-- Witness for C6 on the concrete fresh target `myapp`. -/
theorem C6_operation_order_witness :
    (Runtime.mk (scaffoldedFS (joinPath [] "myapp"))
        (scaffoldOut (joinPath [] "myapp") "myapp")
        (runTrace (joinPath [] "myapp"))).trace =
      runTrace (joinPath [] "myapp") ∧
    ∃ pre, (Runtime.mk (scaffoldedFS (joinPath [] "myapp"))
        (scaffoldOut (joinPath [] "myapp") "myapp")
        (runTrace (joinPath [] "myapp"))).out =
      pre ++ [Msg.structureCreated "myapp"] :=
  C6_operation_order (FS.mk [joinPath [] "myapp"] []) "myapp" _
    (by decide) (by decide)

/-- Claim C9: in every run (on a well-formed filesystem) the only entries
ever deleted are files named `models.py`, `admin.py`, `tests.py` or
`views.py` located directly under `base_dir`; no directory is ever removed,
and every pre-existing file not at one of those four paths is still present
with unchanged contents afterwards (its exact path-contents pair survives).
This covers aborted runs as well, via the state carried by the outcome. -/
theorem C9_frame (fs : FS) (appName : String) (hwf : fs.Wf) :
    (∀ p ∈ fs.dirs, p ∈ ((handle fs appName).fs).dirs) ∧
    (∀ e ∈ fs.files, e ∈ ((handle fs appName).fs).files ∨
      ∃ f ∈ defaultFiles, e.1 = joinPath (joinPath [] appName) f) := by
  by_cases hex : fs.existsP (joinPath [] appName)
  case neg =>
    rw [handle_not_exists fs appName hex]
    exact ⟨fun p hp => hp, fun e he => Or.inl he⟩
  case pos =>
    have hc0 : fs.filesClosed := fun e he => (hwf.2.1 e he).2
    simp only [handle]
    rw [if_neg (not_not_intro hex)]
    obtain ⟨hd, hs, hb⟩ := removeFilesLoop_fs_facts (joinPath [] appName)
      { fs := fs, out := [], trace := [] } defaultFiles
    rw [show removeFilesLoop (joinPath [] appName)
        { fs := fs, out := [], trace := [] } defaultFiles =
      removeDefaultFiles { fs := fs, out := [], trace := [] }
        (joinPath [] appName) from rfl] at hd hs hb
    rcases hr1 : removeDefaultFiles { fs := fs, out := [], trace := [] }
        (joinPath [] appName) with rt1 | ⟨rt1, e1⟩
    · rw [hr1] at hd hs hb
      simp only [RunResult.fs] at hd hs hb
      simp only [RunResult.andThen, createFolderStructure]
      have closed1 : rt1.fs.filesClosed := by
        intro e he
        have := hc0 e (hs e he)
        exact (FS.isDir_congr hd _).mpr this
      have frameL := createFoldersLoop_frame (joinPath [] appName) rt1
        structureTable closed1
      rcases hr2 : createFoldersLoop (joinPath [] appName) rt1 structureTable
        with rt2 | ⟨rt2, e2⟩
      · rw [hr2] at frameL
        simp only [RunResult.fs] at frameL
        simp only [RunResult.andThen]
        have frameE := createFolderWithInit_frame rt2
          (joinPath (joinPath (joinPath (joinPath [] appName) "models")
            "helper") "enums") frameL.2
        rcases hr3 : createFolderWithInit rt2
            (joinPath (joinPath (joinPath (joinPath [] appName) "models")
              "helper") "enums") with rt3 | ⟨rt3, e3⟩
        · rw [hr3] at frameE
          simp only [RunResult.fs] at frameE
          simp only [RunResult.andThen, RunResult.fs]
          refine ⟨?_, ?_⟩
          · intro p hp
            exact frameE.1.1 p (frameL.1.1 p (hd ▸ hp))
          · intro e he
            rcases hb e he with hin | hdef
            · exact Or.inl (frameE.1.2 e (frameL.1.2 e hin))
            · exact Or.inr hdef
        · rw [hr3] at frameE
          simp only [RunResult.fs] at frameE
          simp only [RunResult.andThen, RunResult.fs]
          refine ⟨?_, ?_⟩
          · intro p hp
            exact frameE.1.1 p (frameL.1.1 p (hd ▸ hp))
          · intro e he
            rcases hb e he with hin | hdef
            · exact Or.inl (frameE.1.2 e (frameL.1.2 e hin))
            · exact Or.inr hdef
      · rw [hr2] at frameL
        simp only [RunResult.fs] at frameL
        simp only [RunResult.andThen, RunResult.fs]
        refine ⟨?_, ?_⟩
        · intro p hp
          exact frameL.1.1 p (hd ▸ hp)
        · intro e he
          rcases hb e he with hin | hdef
          · exact Or.inl (frameL.1.2 e hin)
          · exact Or.inr hdef
    · rw [hr1] at hd hs hb
      simp only [RunResult.fs] at hd hs hb
      simp only [RunResult.andThen, RunResult.fs]
      refine ⟨?_, ?_⟩
      · intro p hp
        rw [hd]
        exact hp
      · exact hb

/-- Witness for C9: a run over a state holding a default file, a foreign
root file and a subfolder file. -/
theorem C9_frame_witness :
    (∀ p ∈ (FS.mk [["myapp"], ["myapp", "api"]]
        [(["myapp", "models.py"], "m"), (["myapp", "api", "views.py"], "v")]).dirs,
      p ∈ ((handle (FS.mk [["myapp"], ["myapp", "api"]]
        [(["myapp", "models.py"], "m"),
         (["myapp", "api", "views.py"], "v")]) "myapp").fs).dirs) ∧
    (∀ e ∈ (FS.mk [["myapp"], ["myapp", "api"]]
        [(["myapp", "models.py"], "m"), (["myapp", "api", "views.py"], "v")]).files,
      e ∈ ((handle (FS.mk [["myapp"], ["myapp", "api"]]
        [(["myapp", "models.py"], "m"),
         (["myapp", "api", "views.py"], "v")]) "myapp").fs).files ∨
      ∃ f ∈ defaultFiles, e.1 = joinPath (joinPath [] "myapp") f) :=
  C9_frame (FS.mk [["myapp"], ["myapp", "api"]]
    [(["myapp", "models.py"], "m"), (["myapp", "api", "views.py"], "v")])
    "myapp" (by decide)

/-- Claim C3: idempotence.  After any completed run on an existing target,
a second run performs zero additional creations (every target path already
exists, so no creation message is emitted), re-runs default-file removal as
a no-op (the four checks appear in the trace, no warning is emitted), leaves
the filesystem exactly as the first run left it, and emits only the final
success message. -/
theorem C3_idempotent (fs : FS) (appName : String) (rt : Runtime)
    (hex : fs.existsP (joinPath [] appName))
    (h : handle fs appName = .ok rt) :
    handle rt.fs appName =
      .ok { fs := rt.fs, out := [Msg.structureCreated appName],
            trace := runTrace (joinPath [] appName) } := by
  obtain ⟨rt1, rt2, rt3, h1, h2, h3, rfl⟩ := handle_ok_parts fs appName rt hex h
  obtain ⟨hd, hs, hb⟩ := removeFilesLoop_fs_facts (joinPath [] appName)
    { fs := fs, out := [], trace := [] } defaultFiles
  rw [show removeFilesLoop (joinPath [] appName)
      { fs := fs, out := [], trace := [] } defaultFiles =
    removeDefaultFiles { fs := fs, out := [], trace := [] }
      (joinPath [] appName) from rfl, h1] at hd hs hb
  simp only [RunResult.fs] at hd hs hb
  have hbase1 : rt1.fs.existsP (joinPath [] appName) := by
    rcases hex with hdir | hfile
    · rcases hdir with hnil | hmem
      · exact Or.inl (Or.inl hnil)
      · exact Or.inl (Or.inr (hd ▸ hmem))
    · obtain ⟨e, he, heq⟩ := List.mem_map.mp hfile
      rcases hb e he with hin | ⟨f, hf, hfe⟩
      · exact Or.inr (List.mem_map.mpr ⟨e, hin, heq⟩)
      · exact absurd (hfe.symm.trans heq) (joinPath_default_ne_base _ f hf)
  have hnodef1 := removeFilesLoop_ok_post (joinPath [] appName)
    { fs := fs, out := [], trace := [] } rt1 defaultFiles h1
  obtain ⟨mono2, targets2, bound2⟩ := createFoldersLoop_ok_facts
    (joinPath [] appName) rt1 rt2 structureTable hbase1 h2
  have hbase2 : rt2.fs.existsP (joinPath [] appName) := mono2 _ hbase1
  have hhelper2 : rt2.fs.existsP ((joinPath [] appName) ++ ["models", "helper"]) :=
    targets2 _ (helper_mem_loopTargets _)
  obtain ⟨mono3, target3, bound3⟩ := createFolderWithInit_ok_facts rt2 _ rt3
    (Or.inl (by rw [dropLast_append_three]; exact hhelper2)) h3
  have hbase3 : rt3.fs.existsP (joinPath [] appName) := mono3 _ hbase2
  have henumsmem : joinPath (joinPath (joinPath (joinPath [] appName) "models")
      "helper") "enums" ∈ allCreatePaths (joinPath [] appName) :=
    List.mem_append_right _ (List.mem_singleton_self _)
  have henums2 : ((joinPath [] appName) ++ ["models", "helper", "enums"]) ∈
      allCreatePaths (joinPath [] appName) := by
    rw [← enumsPath_eq]
    exact henumsmem
  have hall3 : ∀ p ∈ allCreatePaths (joinPath [] appName), rt3.fs.existsP p := by
    intro p hp
    rcases List.mem_append.mp hp with hpl | hpe
    · exact mono3 _ (targets2 p hpl)
    · rw [List.mem_singleton] at hpe
      subst hpe
      rw [enumsPath_eq]
      exact target3
  have hnodef3 : ∀ f ∈ defaultFiles,
      ¬ rt3.fs.existsP (joinPath (joinPath [] appName) f) := by
    intro f hf hcontra
    rcases bound3 _ hcontra with hin2 | hp | hpi
    · rcases bound2 _ hin2 with hin1 | ⟨p, hpl, hpe⟩
      · exact hnodef1 f hf hin1
      · have hne := default_ne_created (joinPath [] appName) f hf p
          (List.mem_append_left _ hpl)
        rcases hpe with hq | hq
        · exact hne.1 hq
        · exact hne.2 hq
    · exact (default_ne_created (joinPath [] appName) f hf _ henums2).1 hp
    · exact (default_ne_created (joinPath [] appName) f hf _ henums2).2 hpi
  show handle rt3.fs appName = _
  simp only [handle]
  rw [if_neg (not_not_intro hbase3)]
  rw [show removeDefaultFiles { fs := rt3.fs, out := [], trace := [] }
      (joinPath [] appName) =
    removeFilesLoop (joinPath [] appName)
      { fs := rt3.fs, out := [], trace := [] } defaultFiles from rfl]
  rw [removeFilesLoop_skip _ _ _ (by
    intro f hf
    exact hnodef3 f hf)]
  simp only [RunResult.andThen, createFolderStructure]
  rw [createFoldersLoop_skip _ _ _ (by
    intro p hp
    exact hall3 p (List.mem_append_left _ hp))]
  simp only [RunResult.andThen]
  rw [createFolderWithInit_skip _ _ (by exact hall3 _ henumsmem)]
  simp only [RunResult.andThen]
  simp [runTrace, allCreatePaths, List.map_append]

/-- Witness for C3: on the fresh target `myapp`, a second run over the
scaffolded state is a pure no-op up to the final success message. -/
theorem C3_idempotent_witness :
    handle (Runtime.mk (scaffoldedFS (joinPath [] "myapp"))
        (scaffoldOut (joinPath [] "myapp") "myapp")
        (runTrace (joinPath [] "myapp"))).fs "myapp" =
      .ok { fs := (Runtime.mk (scaffoldedFS (joinPath [] "myapp"))
              (scaffoldOut (joinPath [] "myapp") "myapp")
              (runTrace (joinPath [] "myapp"))).fs,
            out := [Msg.structureCreated "myapp"],
            trace := runTrace (joinPath [] "myapp") } :=
  C3_idempotent (FS.mk [joinPath [] "myapp"] []) "myapp" _
    (by decide) (by decide)

/-- Claim C10: for the empty app name, `base_dir` resolves to the working
directory itself, the existence check passes on every filesystem state, and
the tool scaffolds directly into the working directory — including deleting
its root-level `models.py`, `admin.py`, `tests.py` and `views.py` when
present, as the concrete run below shows. -/
theorem C10_empty_app_name :
    joinPath [] "" = ([] : FsPath) ∧
    (∀ fs : FS, fs.existsP (joinPath [] "")) ∧
    handle (FS.mk []
        [(["models.py"], "m"), (["admin.py"], "a"),
         (["tests.py"], "t"), (["views.py"], "v")]) "" =
      .ok { fs := FS.mk ((allCreatePaths []).reverse)
              (((allCreatePaths []).map
                (fun p => (p ++ ["__init__.py"], ""))).reverse),
            out := defaultFiles.map (fun f => Msg.removedFile [f]) ++
              (allCreatePaths []).map Msg.created ++ [Msg.structureCreated ""],
            trace := runTrace [] } := by
  refine ⟨rfl, fun fs => fs.existsP_nil, ?_⟩
  decide

theorem handle_fresh (appName : String) :
    handle (FS.mk [joinPath [] appName] []) appName =
      .ok { fs := scaffoldedFS (joinPath [] appName),
            out := scaffoldOut (joinPath [] appName) appName,
            trace := runTrace (joinPath [] appName) } := by
  simp only [handle]
  generalize joinPath [] appName = base
  have hex : (FS.mk [base] []).existsP base :=
    Or.inl (Or.inr (List.mem_singleton_self base))
  rw [if_neg (not_not_intro hex)]
  simp only [removeDefaultFiles]
  rw [removeFilesLoop_skip base _ defaultFiles (by
    intro f hf
    rw [joinPath_ne base f (defaultFiles_ne_empty f hf)]
    rintro ((hnil | hmem) | hfl)
    · exact absurd hnil (by simp)
    · rw [List.mem_singleton, List.append_right_eq_self] at hmem
      exact absurd hmem (by simp)
    · exact absurd hfl (by simp [FS.isFile]))]
  simp only [RunResult.andThen, createFolderStructure, createFoldersLoop,
    createSubfolders, structureTable]
  simp [joinPath, createFolderWithInit_create, RunResult.andThen, FS.existsP,
    FS.isDir, FS.isFile, List.append_right_inj, List.append_right_eq_self,
    scaffoldedFS, scaffoldOut, runTrace, allCreatePaths, loopTargets,
    structureTable]

theorem scaffold_dirs_mem (base : FsPath) (p : FsPath) :
    p ∈ (scaffoldedFS base).dirs ↔
      p = base ∨ ∃ rel ∈ scaffoldRels, p = base ++ rel := by
  simp only [scaffoldedFS, List.mem_append, List.mem_reverse,
    List.mem_singleton, allCreatePaths_map, List.mem_map]
  constructor
  · rintro (⟨rel, hrel, rfl⟩ | rfl)
    · exact Or.inr ⟨rel, attempt_sub_scaffold rel hrel, rfl⟩
    · exact Or.inl rfl
  · rintro (rfl | ⟨rel, hrel, rfl⟩)
    · exact Or.inr rfl
    · exact Or.inl ⟨rel, scaffold_sub_attempt rel hrel, rfl⟩

theorem scaffold_files_mem (base : FsPath) (e : FsPath × String) :
    e ∈ (scaffoldedFS base).files ↔
      ∃ rel ∈ scaffoldRels, e = (base ++ rel ++ ["__init__.py"], "") := by
  simp only [scaffoldedFS, List.mem_reverse, allCreatePaths_map, List.map_map,
    List.mem_map, Function.comp]
  constructor
  · rintro ⟨rel, hrel, rfl⟩
    exact ⟨rel, attempt_sub_scaffold rel hrel, rfl⟩
  · rintro ⟨rel, hrel, rfl⟩
    exact ⟨rel, scaffold_sub_attempt rel hrel, rfl⟩

theorem scaffold_marker_files (base : FsPath) :
    scaffoldRels.map (fun rel => fileChildren (scaffoldedFS base) (base ++ rel)) =
      scaffoldRels.map (fun rel => [(base ++ rel ++ ["__init__.py"], "")]) := by
  simp [scaffoldRels, fileChildren, scaffoldedFS, allCreatePaths, loopTargets,
    structureTable, joinPath, isChildOf, List.append_right_inj,
    List.append_right_eq_self]

/-- Claim C1: for every app name whose directory exists and is empty (and
holds no default files), the run creates exactly the fixed scaffold tree:
the 24 folders of the specification (set-exactly: a path is a directory of
the result iff it is the target or one of the 24 listed relative paths), the
files of the result are exactly the 24 empty `__init__.py` markers, each
created directory holds exactly its one empty marker file, and the output is
one creation message per path plus the final success (no removal warning). -/
theorem C1_fresh_target_scaffold (appName : String) :
    handle (FS.mk [joinPath [] appName] []) appName =
      .ok { fs := scaffoldedFS (joinPath [] appName),
            out := scaffoldOut (joinPath [] appName) appName,
            trace := runTrace (joinPath [] appName) } ∧
    (∀ p, p ∈ (scaffoldedFS (joinPath [] appName)).dirs ↔
      p = joinPath [] appName ∨
        ∃ rel ∈ scaffoldRels, p = joinPath [] appName ++ rel) ∧
    (∀ e, e ∈ (scaffoldedFS (joinPath [] appName)).files ↔
      ∃ rel ∈ scaffoldRels,
        e = (joinPath [] appName ++ rel ++ ["__init__.py"], "")) ∧
    (scaffoldRels.map (fun rel =>
        fileChildren (scaffoldedFS (joinPath [] appName))
          (joinPath [] appName ++ rel)) =
      scaffoldRels.map (fun rel =>
        [(joinPath [] appName ++ rel ++ ["__init__.py"], "")])) :=
  ⟨handle_fresh appName, scaffold_dirs_mem _, scaffold_files_mem _,
    scaffold_marker_files _⟩
